import Mathlib

/-!
Shallow embedding of the `simlpaper` core (src/utils/keyword_extractor.py and
src/utils/network_builder.py) and proofs about the frozen claims.

Modelling conventions:
* Python floats are modelled as exact rationals (`ℚ`); a value that may be
  NaN/Inf (a similarity-matrix entry) is modelled by the inductive `PyFloat`.
* `math`/`numpy` transcendental functions (`cos`, `sin`, `sqrt`) are passed in
  as abstract parameters: `cosA i` stands for `cos(golden_angle * i)`,
  `sinA i` for `sin(golden_angle * i)`, and `sqrtq` for the square root.
  Theorems that need a property of the real square root take it as an
  explicit hypothesis (for example `sqrtq 0 = 0`).
* `sklearn.TfidfVectorizer.fit_transform` is an external library call; it is
  modelled as an oracle `tfidf : List String → Option (List (List ℚ))`
  returning `none` exactly when the library raises (the `except:` path of
  `calculate_similarity`).  `numpy.random.rand(n, n)` is modelled by an
  abstract source `rand : ℕ → ℕ → ℚ` of values in `[0, 1)`.
* Python dicts with string keys are association lists; `dict(pairs)` lookup
  takes the last binding, as in Python.  `collections.Counter` is an
  association list in key-insertion order.
* `Counter.most_common(n)` (via `heapq.nlargest`) is a stable sort,
  descending by value, followed by `take n`; it is embedded as the
  structurally recursive stable insertion sort `sortDesc`.
-/

/-- The fixed English stop-word set of `keyword_extractor.py` (`STOP_WORDS`). -/
def STOP_WORDS : List String :=
  ["the", "a", "an", "and", "or", "but", "in", "on", "at", "to", "for",
   "of", "with", "by", "from", "as", "is", "was", "are", "were", "been",
   "be", "have", "has", "had", "do", "does", "did", "will", "would", "could",
   "should", "may", "might", "can", "this", "that", "these", "those", "it",
   "its", "we", "our", "you", "your", "they", "their", "i", "my", "me"]

/-- Python `str.lower()` on the ASCII letters (the only case-carrying
characters relevant to the regex `[^a-z\s]` that follows). -/
def pyLower (c : Char) : Char :=
  if 'A' ≤ c ∧ c ≤ 'Z' then Char.ofNat (c.toNat + 32) else c

/-- The characters matched by the regex class `\s`. -/
def isPySpace (c : Char) : Bool :=
  c = ' ' ∨ c = '\t' ∨ c = '\n' ∨ c = '\r' ∨ c = '\x0b' ∨ c = '\x0c'

/-- One step of the regex substitution in `extract_keywords`: a character that is neither
a lowercase letter nor whitespace is replaced by a space. -/
def keepLetter (c : Char) : Char :=
  if ('a' ≤ c ∧ c ≤ 'z') ∨ isPySpace c then c else ' '

/-- Tokenization: `text.lower()`, then the regex substitution, then
`text.split()`: Python `str.split()` with no argument splits on whitespace
runs and drops empty pieces. -/
def pyWords (text : String) : List String :=
  ((((text.toList.map pyLower).map keepLetter).splitOnP isPySpace).filter
      (fun cs => !cs.isEmpty)).map (fun cs => ⟨cs⟩)

/-- The token filter of `extract_keywords`:
`[w for w in words if w not in STOP_WORDS and len(w) > 3]`. -/
def qualifyingWords (text : String) : List String :=
  (pyWords text).filter (fun w => !(STOP_WORDS.contains w) && decide (3 < w.length))

/-- One counting step of `collections.Counter(words)` on an
insertion-ordered association list. -/
def counterStepN (acc : List (String × ℕ)) (w : String) : List (String × ℕ) :=
  if acc.any (fun p => p.1 == w) then
    acc.map (fun p => if p.1 == w then (p.1, p.2 + 1) else p)
  else acc ++ [(w, 1)]

/-- Model of `collections.Counter(words)`: an association list in key-insertion
order, counting occurrences. -/
def counterN (ws : List String) : List (String × ℕ) :=
  ws.foldl counterStepN []

/-- Stable insertion (descending by `key`): the new element `x`, which
originates earlier in the input than everything already placed, goes in
front of the first element whose key is `≤ key x`. -/
def insDesc {α β : Type} [LinearOrder β] (key : α → β) (x : α) : List α → List α
  | [] => [x]
  | y :: ys => if key y ≤ key x then x :: y :: ys else y :: insDesc key x ys

/-- Stable sort, descending by `key`: the order produced by the stable Python
sorting (`sorted` with reverse, `heapq.nlargest`) on distinct
original positions. -/
def sortDesc {α β : Type} [LinearOrder β] (key : α → β) (l : List α) : List α :=
  l.foldr (insDesc key) []

/-- Model of `Counter.most_common(n)`: the `n` largest entries by value, ties broken
by key-insertion order (`heapq.nlargest` is stable). -/
def most_common {α β : Type} [LinearOrder β] (l : List (α × β)) (n : ℕ) :
    List (α × β) :=
  (sortDesc Prod.snd l).take n

/-- Model of `extract_keywords(text, top_n=30)` from `keyword_extractor.py`. -/
def extract_keywords (text : String) (top_n : ℕ := 30) : List (String × ℚ) :=
  let words := qualifyingWords text
  if words = [] then []
  else
    let word_freq := counterN words
    let max_freq := (word_freq.map Prod.snd).foldl max 0
    (most_common word_freq top_n).map
      (fun p => (p.1, (p.2 : ℚ) / (max_freq : ℚ)))

/-- A document as assembled by `app.py`, with keys id, name, text, keywords. -/
structure Paper where
  id : ℕ
  name : String
  text : String
  keywords : List (String × ℚ)
deriving DecidableEq, Repr

/-- A Python float that may be NaN or ±Inf (a similarity-matrix entry). -/
inductive PyFloat where
  | val : ℚ → PyFloat
  | nan : PyFloat
  | inf : PyFloat
  | ninf : PyFloat
deriving DecidableEq, Repr

/-- Model of `np.dot` on two vectors (trailing entries of the longer vector are
ignored; the real vectors always have equal length). -/
def dot : List ℚ → List ℚ → ℚ
  | a :: u, b :: v => a * b + dot u v
  | _, _ => 0

/-- The norm factor used by sklearn normalization: zero norms are replaced
by `1`, so an all-zero row stays zero.  `sqrtq` abstracts the square root. -/
def normFactor (sqrtq : ℚ → ℚ) (v : List ℚ) : ℚ :=
  if sqrtq (dot v v) = 0 then 1 else sqrtq (dot v v)

/-- Model of `sklearn.metrics.pairwise.cosine_similarity(X)`: normalize every row
(zero rows stay zero) and take all pairwise dot products. -/
def cosine_similarity (sqrtq : ℚ → ℚ) (rows : List (List ℚ)) :
    List (List PyFloat) :=
  rows.map (fun ri =>
    rows.map (fun rj =>
      PyFloat.val (dot ri rj / (normFactor sqrtq ri * normFactor sqrtq rj))))

/-- Model of `calculate_similarity(papers)` from `keyword_extractor.py`.
`tfidf` is the `TfidfVectorizer.fit_transform` oracle (`none` = the library
raised, the `except:` path); `rand` is the `np.random.rand` source, so the
fallback matrix is `rand i j * 0.5 + 0.3` entrywise. -/
def calculate_similarity (sqrtq : ℚ → ℚ)
    (tfidf : List String → Option (List (List ℚ)))
    (rand : ℕ → ℕ → ℚ) (papers : List Paper) : List (List PyFloat) :=
  if papers.length < 2 then [[PyFloat.val 1]]
  else
    let texts := papers.map Paper.text
    match tfidf texts with
    | some tfidf_matrix => cosine_similarity sqrtq tfidf_matrix
    | none =>
      let n := papers.length
      (List.range n).map (fun i =>
        (List.range n).map (fun j => PyFloat.val (rand i j * (1 / 2) + 3 / 10)))

/-- A 3D position. -/
structure Vec3 where
  x : ℚ
  y : ℚ
  z : ℚ
deriving DecidableEq, Repr

instance : Inhabited Vec3 := ⟨⟨0, 0, 0⟩⟩

/-- The quantity `y = 1 - (i / float(n - 1 if n > 1 else 1)) * 2` of the golden-angle
placement loops in `network_builder.py`. -/
def sphereY (n i : ℕ) : ℚ :=
  1 - ((i : ℚ) / ((if 1 < n then n - 1 else 1 : ℕ) : ℚ)) * 2

/-- One position of the golden-angle loop: `cosA i` and `sinA i` stand for
`np.cos(golden_angle * i)` and `np.sin(golden_angle * i)`, `sqrtq` for
`np.sqrt`, `r` for the sphere radius. -/
def placePoint (cosA sinA : ℕ → ℚ) (sqrtq : ℚ → ℚ) (r : ℚ) (n i : ℕ) : Vec3 :=
  let yn := sphereY n i
  let ring := sqrtq (1 - yn * yn)
  { x := r * cosA i * ring, y := r * yn, z := r * sinA i * ring }

/-- The whole golden-angle placement pass for `n` nodes on radius `r`. -/
def placeOnSphere (cosA sinA : ℕ → ℚ) (sqrtq : ℚ → ℚ) (n : ℕ) (r : ℚ) :
    List Vec3 :=
  (List.range n).map (placePoint cosA sinA sqrtq r n)

/-- One `all_keywords[keyword] += score` step on the insertion-ordered
Counter. -/
def counterAddQ (acc : List (String × ℚ)) (kv : String × ℚ) :
    List (String × ℚ) :=
  if acc.any (fun p => p.1 == kv.1) then
    acc.map (fun p => if p.1 == kv.1 then (p.1, p.2 + kv.2) else p)
  else acc ++ [kv]

/-- The `all_keywords` Counter of `build_network_data`: every document
contributes its `keywords[:20]` slice, scores summed per term. -/
def allKeywordsOf (papers : List Paper) : List (String × ℚ) :=
  papers.foldl (fun acc p => (p.keywords.take 20).foldl counterAddQ acc) []

/-- Lookup in a dict built with `dict(pairs)`: the last binding wins. -/
def lookupQ (l : List (String × ℚ)) (k : String) : Option ℚ :=
  (l.reverse.find? (fun p => p.1 == k)).map Prod.snd

/-- Lookup in the `keyword_positions` dict (last binding wins). -/
def lookupV (l : List (String × Vec3)) (k : String) : Option Vec3 :=
  (l.reverse.find? (fun p => p.1 == k)).map Prod.snd

/-- Counter `__getitem__` (keys of a Counter are unique, first find). -/
def cLookup {β : Type} (l : List (String × β)) (k : String) : Option β :=
  (l.find? (fun p => p.1 == k)).map Prod.snd

/-- The index pairs visited by `for i in range(n): for j in range(i+1, n)`. -/
def pairsBelow (n : ℕ) : List (ℕ × ℕ) :=
  (List.range n).flatMap (fun i =>
    (List.range' (i + 1) (n - (i + 1))).map (fun j => (i, j)))

/-- Entry access `similarity_matrix[i][j]` with an out-of-range access reported as
`none` (the `IndexError` that the edge loops catch and skip). -/
def mget? (m : List (List PyFloat)) (i j : ℕ) : Option PyFloat :=
  (m.get? i).bind (fun row => row.get? j)

/-- The edge condition of the document-document loops: the entry exists,
`not isnan`, `not isinf`, and `similarity > threshold`. -/
def edgeOK (m : List (List PyFloat)) (thr : ℚ) (i j : ℕ) : Bool :=
  match mget? m i j with
  | some (PyFloat.val q) => decide (thr < q)
  | _ => false

/-- The pairs `(i, j)`, `i < j`, that the document-document edge loop keeps. -/
def docEdgePairs (m : List (List PyFloat)) (thr : ℚ) (n : ℕ) : List (ℕ × ℕ) :=
  (pairsBelow n).filter (fun p => edgeOK m thr p.1 p.2)

/-- One emitted polyline run `[coord0, coord1, None]` for coordinate `f`. -/
def segER (f : Vec3 → ℚ) (pos : List Vec3) (p : ℕ × ℕ) : List (Option ℚ) :=
  [some (f (pos.getD p.1 default)), some (f (pos.getD p.2 default)), none]

/-- The flat `edge_x`/`edge_y`/`edge_z` coordinate list (with `None` gap
markers) produced by the document-document edge loop. -/
def docEdgeCoord (f : Vec3 → ℚ) (m : List (List PyFloat)) (pos : List Vec3)
    (thr : ℚ) (n : ℕ) : List (Option ℚ) :=
  (docEdgePairs m thr n).flatMap (segER f pos)

/-- The document-keyword edge loop of `build_network_data` (fixed 0.3
threshold, every top keyword has a position). -/
def kwEdgeCoordB (f : Vec3 → ℚ) (papers : List Paper) (pPos : List Vec3)
    (topKw : List String) (kPos : List (String × Vec3)) : List (Option ℚ) :=
  papers.enum.flatMap (fun ip =>
    if ip.2.keywords.isEmpty then []
    else
      let pk := ip.2.keywords.take 20
      let p0 := pPos.getD ip.1 default
      topKw.flatMap (fun kw =>
        match lookupQ pk kw with
        | some score =>
          if 3 / 10 < score then
            [some (f p0), some (f ((lookupV kPos kw).getD default)), none]
          else []
        | none => []))

/-- The document-keyword edge loop of `filter_network_data` (threshold
`min_similarity`, and the extra `keyword in keyword_positions` guard). -/
def kwEdgeCoordF (f : Vec3 → ℚ) (papers : List Paper) (pPos : List Vec3)
    (topKw : List String) (kPos : List (String × Vec3)) (thr : ℚ) :
    List (Option ℚ) :=
  papers.enum.flatMap (fun ip =>
    if ip.2.keywords.isEmpty then []
    else
      let pk := ip.2.keywords.take 20
      let p0 := pPos.getD ip.1 default
      topKw.flatMap (fun kw =>
        match lookupQ pk kw, lookupV kPos kw with
        | some score, some kv =>
          if thr < score then [some (f p0), some (f kv), none] else []
        | _, _ => []))

/-- Deterministic rendering of a score; abstracts the Python f-string
formatting of the hover floats. -/
def fmtQ (q : ℚ) : String :=
  toString q.num ++ "/" ++ toString q.den

/-- The dict returned by `build_network_data` (and by
`filter_network_data`), one field per key, in source order. -/
structure NetworkData where
  edge_x : List (Option ℚ)
  edge_y : List (Option ℚ)
  edge_z : List (Option ℚ)
  keyword_edge_x : List (Option ℚ)
  keyword_edge_y : List (Option ℚ)
  keyword_edge_z : List (Option ℚ)
  paper_x : List ℚ
  paper_y : List ℚ
  paper_z : List ℚ
  paper_labels : List String
  paper_hover : List String
  paper_ids : List ℕ
  keyword_x : List ℚ
  keyword_y : List ℚ
  keyword_z : List ℚ
  keyword_labels : List String
  keyword_hover : List String
  all_keywords : List (String × ℚ)
  paper_positions : List Vec3
  keyword_positions : List (String × Vec3)
  similarity_matrix : List (List PyFloat)
deriving DecidableEq, Repr

/-- Model of `_empty_network_data()` from `network_builder.py`. -/
def emptyNetworkData : NetworkData :=
  { edge_x := [], edge_y := [], edge_z := []
    keyword_edge_x := [], keyword_edge_y := [], keyword_edge_z := []
    paper_x := [], paper_y := [], paper_z := []
    paper_labels := [], paper_hover := [], paper_ids := []
    keyword_x := [], keyword_y := [], keyword_z := []
    keyword_labels := [], keyword_hover := []
    all_keywords := []
    paper_positions := []
    keyword_positions := []
    similarity_matrix := [] }

/-- Model of `build_network_data(papers)` from `network_builder.py`.
The similarity matrix produced by the rational model contains no NaN/Inf
entry, so the `np.eye` sanitization branch (and the `except` fallback to
`np.eye`) of the source cannot fire and is not represented. -/
def buildNetworkData (cosA sinA : ℕ → ℚ) (sqrtq : ℚ → ℚ)
    (tfidf : List String → Option (List (List ℚ))) (rand : ℕ → ℕ → ℚ)
    (papers : List Paper) : NetworkData :=
  if papers = [] then emptyNetworkData
  else
    let n_papers := papers.length
    let paper_positions := placeOnSphere cosA sinA sqrtq n_papers 3
    let all_keywords := allKeywordsOf papers
    if all_keywords = [] then emptyNetworkData
    else
      let top_keywords := (most_common all_keywords 30).map Prod.fst
      if top_keywords = [] then emptyNetworkData
      else
        let n_keywords := top_keywords.length
        let keyword_positions := top_keywords.enum.map
          (fun p => (p.2, placePoint cosA sinA sqrtq (3 / 2) n_keywords p.1))
        let similarity_matrix := calculate_similarity sqrtq tfidf rand papers
        { edge_x := docEdgeCoord Vec3.x similarity_matrix paper_positions (3 / 10) n_papers
          edge_y := docEdgeCoord Vec3.y similarity_matrix paper_positions (3 / 10) n_papers
          edge_z := docEdgeCoord Vec3.z similarity_matrix paper_positions (3 / 10) n_papers
          keyword_edge_x := kwEdgeCoordB Vec3.x papers paper_positions top_keywords keyword_positions
          keyword_edge_y := kwEdgeCoordB Vec3.y papers paper_positions top_keywords keyword_positions
          keyword_edge_z := kwEdgeCoordB Vec3.z papers paper_positions top_keywords keyword_positions
          paper_x := paper_positions.map Vec3.x
          paper_y := paper_positions.map Vec3.y
          paper_z := paper_positions.map Vec3.z
          paper_labels := (List.range n_papers).map (fun i => "P" ++ toString (i + 1))
          paper_hover := papers.map (fun p =>
            "<b>" ++ p.name ++ "</b><br>キーワード数: " ++ toString p.keywords.length)
          paper_ids := List.range n_papers
          keyword_x := keyword_positions.map (fun p => p.2.x)
          keyword_y := keyword_positions.map (fun p => p.2.y)
          keyword_z := keyword_positions.map (fun p => p.2.z)
          keyword_labels := top_keywords
          keyword_hover := top_keywords.map (fun kw =>
            "<b>" ++ kw ++ "</b><br>出現回数: " ++ fmtQ ((cLookup all_keywords kw).getD 0))
          all_keywords := all_keywords
          paper_positions := paper_positions
          keyword_positions := keyword_positions
          similarity_matrix := similarity_matrix }

/-- The keyword-truncation step of `filter_network_data`: the five keyword
arrays are cut to `max_keywords` entries when that is fewer than the
current keyword count. -/
def truncKeywords (nd : NetworkData) (max_keywords : ℕ) : NetworkData :=
  if max_keywords < nd.keyword_labels.length then
    { nd with
      keyword_x := nd.keyword_x.take max_keywords
      keyword_y := nd.keyword_y.take max_keywords
      keyword_z := nd.keyword_z.take max_keywords
      keyword_labels := nd.keyword_labels.take max_keywords
      keyword_hover := nd.keyword_hover.take max_keywords }
  else nd

/-- Model of `filter_network_data(network_data, papers, min_similarity, max_keywords)`
from `network_builder.py`.  The input always carries a
`similarity_matrix` field here, so the early `return network_data` for a
dict without that key is not represented; `max_keywords` is a count
(the UI slider ranges over 5..30). -/
def filter_network_data (nd : NetworkData) (papers : List Paper)
    (min_similarity : ℚ) (max_keywords : ℕ) : NetworkData :=
  let fd1 := truncKeywords nd max_keywords
  let n_papers := papers.length
  { fd1 with
    edge_x := docEdgeCoord Vec3.x nd.similarity_matrix nd.paper_positions min_similarity n_papers
    edge_y := docEdgeCoord Vec3.y nd.similarity_matrix nd.paper_positions min_similarity n_papers
    edge_z := docEdgeCoord Vec3.z nd.similarity_matrix nd.paper_positions min_similarity n_papers
    keyword_edge_x := kwEdgeCoordF Vec3.x papers nd.paper_positions fd1.keyword_labels nd.keyword_positions min_similarity
    keyword_edge_y := kwEdgeCoordF Vec3.y papers nd.paper_positions fd1.keyword_labels nd.keyword_positions min_similarity
    keyword_edge_z := kwEdgeCoordF Vec3.z papers nd.paper_positions fd1.keyword_labels nd.keyword_positions min_similarity }

/-- The field-name-to-location map of a network-data dict object.  Each
field holds the heap location of the corresponding Python object. -/
structure DictRef where
  edge_x : ℕ
  edge_y : ℕ
  edge_z : ℕ
  keyword_edge_x : ℕ
  keyword_edge_y : ℕ
  keyword_edge_z : ℕ
  paper_x : ℕ
  paper_y : ℕ
  paper_z : ℕ
  paper_labels : ℕ
  paper_hover : ℕ
  paper_ids : ℕ
  keyword_x : ℕ
  keyword_y : ℕ
  keyword_z : ℕ
  keyword_labels : ℕ
  keyword_hover : ℕ
  all_keywords : ℕ
  paper_positions : ℕ
  keyword_positions : ℕ
  similarity_matrix : ℕ
deriving DecidableEq, Repr

/-- A heap object: one of the Python values a network-data dict can hold. -/
inductive PyObj where
  | olist : List (Option ℚ) → PyObj
  | qlist : List ℚ → PyObj
  | slist : List String → PyObj
  | nlist : List ℕ → PyObj
  | counter : List (String × ℚ) → PyObj
  | vlist : List Vec3 → PyObj
  | posmap : List (String × Vec3) → PyObj
  | matrix : List (List PyFloat) → PyObj
  | pydict : DictRef → PyObj
deriving DecidableEq, Repr

/-- A heap: objects addressed by allocation order. -/
structure Heap where
  objs : List PyObj
deriving DecidableEq, Repr

/-- Read the object at a location. -/
def Heap.get (h : Heap) (l : ℕ) : Option PyObj := h.objs.get? l

/-- The location the next allocation will use. -/
def Heap.allocLoc (h : Heap) : ℕ := h.objs.length

/-- Allocate a fresh object (at `allocLoc`). -/
def Heap.push (h : Heap) (v : PyObj) : Heap := ⟨h.objs ++ [v]⟩

/-- Mutate the object at an existing location. -/
def Heap.put (h : Heap) (l : ℕ) (v : PyObj) : Heap := ⟨h.objs.set l v⟩

/-- Read a `List ℚ` object, defaulting on a type mismatch. -/
def Heap.readQ (h : Heap) (l : ℕ) : List ℚ :=
  match h.get l with | some (PyObj.qlist v) => v | _ => []

/-- Read a `List String` object. -/
def Heap.readS (h : Heap) (l : ℕ) : List String :=
  match h.get l with | some (PyObj.slist v) => v | _ => []

/-- Read a positions-list object (the `paper_positions` dict). -/
def Heap.readV (h : Heap) (l : ℕ) : List Vec3 :=
  match h.get l with | some (PyObj.vlist v) => v | _ => []

/-- Read a keyword-positions object. -/
def Heap.readP (h : Heap) (l : ℕ) : List (String × Vec3) :=
  match h.get l with | some (PyObj.posmap v) => v | _ => []

/-- Read a similarity-matrix object. -/
def Heap.readM (h : Heap) (l : ℕ) : List (List PyFloat) :=
  match h.get l with | some (PyObj.matrix v) => v | _ => []

/-- The keyword-truncation statements of `filter_network_data`, at heap
level: five fresh list objects are allocated from slices of the input
lists, and the copied dict (at `fdLoc`) is mutated to point at them. -/
def truncPass (h : Heap) (d fd : DictRef) (fdLoc maxK : ℕ) : Heap × DictRef :=
  if maxK < (h.readS d.keyword_labels).length then
    let lx := h.allocLoc
    let h1 := h.push (PyObj.qlist ((h.readQ d.keyword_x).take maxK))
    let ly := h1.allocLoc
    let h2 := h1.push (PyObj.qlist ((h1.readQ d.keyword_y).take maxK))
    let lz := h2.allocLoc
    let h3 := h2.push (PyObj.qlist ((h2.readQ d.keyword_z).take maxK))
    let ll := h3.allocLoc
    let h4 := h3.push (PyObj.slist ((h3.readS d.keyword_labels).take maxK))
    let lh := h4.allocLoc
    let h5 := h4.push (PyObj.slist ((h4.readS d.keyword_hover).take maxK))
    let fd5 := { fd with
      keyword_x := lx, keyword_y := ly, keyword_z := lz,
      keyword_labels := ll, keyword_hover := lh }
    (h5.put fdLoc (PyObj.pydict fd5), fd5)
  else (h, fd)

/-- The document-document edge statements of `filter_network_data`, at heap
level: three fresh flat edge lists are built (reading the similarity
matrix and positions through the input dict) and the copy is repointed. -/
def docEdgePass (h : Heap) (d fd : DictRef) (fdLoc : ℕ) (papers : List Paper)
    (minS : ℚ) : Heap × DictRef :=
  let m := h.readM d.similarity_matrix
  let pos := h.readV d.paper_positions
  let n := papers.length
  let lx := h.allocLoc
  let h1 := h.push (PyObj.olist (docEdgeCoord Vec3.x m pos minS n))
  let ly := h1.allocLoc
  let h2 := h1.push (PyObj.olist (docEdgeCoord Vec3.y m pos minS n))
  let lz := h2.allocLoc
  let h3 := h2.push (PyObj.olist (docEdgeCoord Vec3.z m pos minS n))
  let fd3 := { fd with edge_x := lx, edge_y := ly, edge_z := lz }
  (h3.put fdLoc (PyObj.pydict fd3), fd3)

/-- The document-keyword edge statements of `filter_network_data`, at heap
level; `top_keywords` is read through the (possibly truncated)
`keyword_labels` of the copied dict. -/
def kwEdgePass (h : Heap) (d fd : DictRef) (fdLoc : ℕ) (papers : List Paper)
    (minS : ℚ) : Heap × DictRef :=
  let pos := h.readV d.paper_positions
  let kpos := h.readP d.keyword_positions
  let topKw := h.readS fd.keyword_labels
  let lx := h.allocLoc
  let h1 := h.push (PyObj.olist (kwEdgeCoordF Vec3.x papers pos topKw kpos minS))
  let ly := h1.allocLoc
  let h2 := h1.push (PyObj.olist (kwEdgeCoordF Vec3.y papers pos topKw kpos minS))
  let lz := h2.allocLoc
  let h3 := h2.push (PyObj.olist (kwEdgeCoordF Vec3.z papers pos topKw kpos minS))
  let fd3 := { fd with keyword_edge_x := lx, keyword_edge_y := ly, keyword_edge_z := lz }
  (h3.put fdLoc (PyObj.pydict fd3), fd3)

/-- Run of `filter_network_data` at heap level: the input dict is looked up at
`ndLoc`; a shallow copy is allocated (`network_data.copy()` shares all
value objects); the three statement groups then run in source order,
writing only to the copy and to freshly allocated lists.  Returns the
final heap and the location of the returned dict. -/
def filterRun (h0 : Heap) (ndLoc : ℕ) (papers : List Paper) (minS : ℚ)
    (maxK : ℕ) : Heap × ℕ :=
  match h0.get ndLoc with
  | some (PyObj.pydict d) =>
    let fdLoc := h0.allocLoc
    let h1 := h0.push (PyObj.pydict d)
    let s1 := truncPass h1 d d fdLoc maxK
    let s2 := docEdgePass s1.1 d s1.2 fdLoc papers minS
    let s3 := kwEdgePass s2.1 d s2.2 fdLoc papers minS
    (s3.1, fdLoc)
  | _ => (h0, ndLoc)

theorem insDesc_perm {α β : Type} [LinearOrder β] (key : α → β) (x : α) :
    ∀ l : List α, (insDesc key x l).Perm (x :: l)
  | [] => by simp [insDesc]
  | y :: ys => by
    unfold insDesc
    split
    · exact List.Perm.refl _
    · exact ((insDesc_perm key x ys).cons y).trans (List.Perm.swap x y ys)

theorem sortDesc_perm {α β : Type} [LinearOrder β] (key : α → β) :
    ∀ l : List α, (sortDesc key l).Perm l
  | [] => List.Perm.refl _
  | x :: xs => by
    have h1 : sortDesc key (x :: xs) = insDesc key x (sortDesc key xs) := rfl
    rw [h1]
    exact (insDesc_perm key x (sortDesc key xs)).trans
      ((sortDesc_perm key xs).cons x)

theorem insDesc_pairwise {α β : Type} [LinearOrder β] (key : α → β) (x : α) :
    ∀ l : List α, l.Pairwise (fun a b => key b ≤ key a) →
      (insDesc key x l).Pairwise (fun a b => key b ≤ key a)
  | [], _ => by simp [insDesc]
  | y :: ys, h => by
    rcases List.pairwise_cons.mp h with ⟨hy, hys⟩
    unfold insDesc
    split
    · rename_i hle
      refine List.pairwise_cons.mpr ⟨?_, h⟩
      intro z hz
      rcases List.mem_cons.mp hz with rfl | hz
      · exact hle
      · exact (hy z hz).trans hle
    · rename_i hgt
      refine List.pairwise_cons.mpr ⟨?_, insDesc_pairwise key x ys hys⟩
      intro z hz
      have hz2 := (insDesc_perm key x ys).mem_iff.mp hz
      rcases List.mem_cons.mp hz2 with rfl | hz3
      · exact le_of_lt (not_le.mp hgt)
      · exact hy z hz3

theorem sortDesc_pairwise {α β : Type} [LinearOrder β] (key : α → β) :
    ∀ l : List α, (sortDesc key l).Pairwise (fun a b => key b ≤ key a)
  | [] => List.Pairwise.nil
  | x :: xs => insDesc_pairwise key x (sortDesc key xs) (sortDesc_pairwise key xs)

theorem insDesc_filter_eq {α β : Type} [LinearOrder β] (key : α → β) (x : α) :
    ∀ l : List α,
      (insDesc key x l).filter (fun y => decide (key y = key x)) =
        x :: l.filter (fun y => decide (key y = key x))
  | [] => by simp [insDesc]
  | y :: ys => by
    unfold insDesc
    split
    · simp
    · rename_i hgt
      have hne : ¬ key y = key x := by
        intro he
        exact hgt (le_of_eq he)
      simp only [List.filter_cons, decide_eq_true_eq, if_neg hne]
      exact insDesc_filter_eq key x ys

theorem insDesc_filter_ne {α β : Type} [LinearOrder β] (key : α → β) (x : α)
    (c : β) (hc : c ≠ key x) :
    ∀ l : List α,
      (insDesc key x l).filter (fun y => decide (key y = c)) =
        l.filter (fun y => decide (key y = c))
  | [] => by simp [insDesc, Ne.symm hc]
  | y :: ys => by
    unfold insDesc
    split
    · simp [List.filter_cons, Ne.symm hc]
    · simp only [List.filter_cons]
      rw [insDesc_filter_ne key x c hc ys]

theorem sortDesc_filter {α β : Type} [LinearOrder β] (key : α → β) (c : β) :
    ∀ l : List α,
      (sortDesc key l).filter (fun y => decide (key y = c)) =
        l.filter (fun y => decide (key y = c))
  | [] => rfl
  | x :: xs => by
    have h1 : sortDesc key (x :: xs) = insDesc key x (sortDesc key xs) := rfl
    rw [h1]
    by_cases hc : key x = c
    · subst hc
      rw [insDesc_filter_eq key x (sortDesc key xs)]
      simp only [List.filter_cons, decide_eq_true_eq, if_pos rfl]
      rw [sortDesc_filter key (key x) xs]
      simp
    · rw [insDesc_filter_ne key x c (Ne.symm hc) (sortDesc key xs)]
      simp only [List.filter_cons, decide_eq_true_eq, if_neg hc]
      exact sortDesc_filter key c xs

theorem counterStepN_pos (acc : List (String × ℕ)) (w : String)
    (h : ∀ p ∈ acc, 1 ≤ p.2) : ∀ p ∈ counterStepN acc w, 1 ≤ p.2 := by
  intro p hp
  unfold counterStepN at hp
  split at hp
  · rcases List.mem_map.mp hp with ⟨q, hq, hqe⟩
    by_cases hw : q.1 == w
    · rw [if_pos hw] at hqe
      subst hqe
      exact le_trans (h q hq) (Nat.le_succ _)
    · rw [if_neg hw] at hqe
      subst hqe
      exact h q hq
  · rcases List.mem_append.mp hp with hq | hq
    · exact h p hq
    · rcases List.mem_singleton.mp hq with rfl
      exact le_refl 1

theorem counterN_foldl_pos :
    ∀ (ws : List String) (acc : List (String × ℕ)),
      (∀ p ∈ acc, 1 ≤ p.2) → ∀ p ∈ ws.foldl counterStepN acc, 1 ≤ p.2
  | [], _, h => h
  | w :: ws, acc, h => by
    simpa using counterN_foldl_pos ws _ (counterStepN_pos acc w h)

theorem counterN_pos (ws : List String) : ∀ p ∈ counterN ws, 1 ≤ p.2 :=
  counterN_foldl_pos ws [] (by simp)

theorem keys_map_update (acc : List (String × ℕ)) (w : String) :
    (acc.map (fun p => if p.1 == w then (p.1, p.2 + 1) else p)).map Prod.fst =
      acc.map Prod.fst := by
  induction acc with
  | nil => rfl
  | cons q qs ih =>
    simp only [List.map_cons]
    by_cases hw : q.1 == w
    · rw [if_pos hw]
      simp only [List.map_cons] at ih ⊢
      exact congrArg _ ih
    · rw [if_neg hw]
      exact congrArg _ ih

theorem counterStepN_nodup (acc : List (String × ℕ)) (w : String)
    (h : (acc.map Prod.fst).Nodup) :
    ((counterStepN acc w).map Prod.fst).Nodup := by
  unfold counterStepN
  split
  · rw [keys_map_update]
    exact h
  · rename_i hna
    rw [List.map_append]
    simp only [List.map_cons, List.map_nil]
    rw [List.nodup_append]
    refine ⟨h, List.nodup_singleton w, ?_⟩
    intro a ha hb
    rcases List.mem_singleton.mp hb with rfl
    rcases List.mem_map.mp ha with ⟨q, hq, hqe⟩
    have : acc.any (fun p => p.1 == a) = true :=
      List.any_eq_true.mpr ⟨q, hq, by simp [hqe]⟩
    exact hna this

theorem counterN_foldl_nodup :
    ∀ (ws : List String) (acc : List (String × ℕ)),
      (acc.map Prod.fst).Nodup →
      ((ws.foldl counterStepN acc).map Prod.fst).Nodup
  | [], _, h => h
  | w :: ws, acc, h => by
    simpa using counterN_foldl_nodup ws _ (counterStepN_nodup acc w h)

theorem counterN_nodup (ws : List String) :
    ((counterN ws).map Prod.fst).Nodup :=
  counterN_foldl_nodup ws [] (by simp)

theorem cLookup_eq_of_mem {β : Type} (l : List (String × β)) (k : String)
    (v : β) (hnd : (l.map Prod.fst).Nodup) (hm : (k, v) ∈ l) :
    cLookup l k = some v := by
  induction l with
  | nil => cases hm
  | cons q qs ih =>
    rcases List.mem_cons.mp hm with rfl | hm2
    · simp [cLookup, List.find?]
    · simp only [List.map_cons, List.nodup_cons] at hnd
      have hk : ¬ (q.1 == k) = true := by
        intro he
        refine hnd.1 ?_
        rw [show q.1 = k from by simpa using he]
        exact List.mem_map.mpr ⟨(k, v), hm2, rfl⟩
      simp only [cLookup, List.find?, hk]
      exact ih hnd.2 hm2

theorem counterStepN_ne_nil (acc : List (String × ℕ)) (w : String)
    (h : acc ≠ []) : counterStepN acc w ≠ [] := by
  unfold counterStepN
  split
  · simpa using h
  · simp

theorem counterN_foldl_ne_nil :
    ∀ (ws : List String) (acc : List (String × ℕ)), acc ≠ [] →
      ws.foldl counterStepN acc ≠ []
  | [], _, h => h
  | w :: ws, acc, h => by
    rw [List.foldl_cons]
    exact counterN_foldl_ne_nil ws _ (counterStepN_ne_nil acc w h)

theorem counterN_ne_nil (ws : List String) (h : ws ≠ []) : counterN ws ≠ [] := by
  match ws with
  | [] => exact absurd rfl h
  | w :: ws =>
    show (w :: ws).foldl counterStepN [] ≠ []
    rw [List.foldl_cons]
    refine counterN_foldl_ne_nil ws _ ?_
    show counterStepN [] w ≠ []
    simp [counterStepN]

theorem foldl_max_init : ∀ (l : List ℕ) (a : ℕ), a ≤ l.foldl max a
  | [], _ => le_refl _
  | z :: zs, a => by
    rw [List.foldl_cons]
    exact le_trans (le_max_left a z) (foldl_max_init zs _)

theorem foldl_max_ge (l : List ℕ) (a x : ℕ) (hx : x ∈ l) : x ≤ l.foldl max a := by
  induction l generalizing a with
  | nil => cases hx
  | cons y ys ih =>
    rw [List.foldl_cons]
    rcases List.mem_cons.mp hx with rfl | hx2
    · exact le_trans (le_max_right a x) (foldl_max_init ys _)
    · exact ih _ hx2

theorem foldl_max_le (l : List ℕ) (a x : ℕ) (ha : a ≤ x)
    (h : ∀ y ∈ l, y ≤ x) : l.foldl max a ≤ x := by
  induction l generalizing a with
  | nil => exact ha
  | cons y ys ih =>
    rw [List.foldl_cons]
    refine ih _ (max_le ha (h y (List.mem_cons_self y ys))) ?_
    intro z hz
    exact h z (List.mem_cons_of_mem y hz)

theorem ek_test_example :
    extract_keywords "test test test example" 30 =
      [("test", 1), ("example", 1 / 3)] := by
  have h2 : counterN (qualifyingWords "test test test example") =
      [("test", 3), ("example", 1)] := by decide
  have h3 : most_common (counterN (qualifyingWords "test test test example")) 30 =
      [("test", 3), ("example", 1)] := by decide
  simp only [extract_keywords]
  rw [if_neg (by decide : ¬ qualifyingWords "test test test example" = [])]
  rw [h3, h2]
  norm_num

/-- C8: if, after lowercasing, stripping non-letters, tokenizing and
discarding stop-words and short tokens, no token remains, then
`extract_keywords` returns the empty sequence (it is total, so it cannot
raise). -/
theorem C8_no_tokens_empty (text : String) (topN : ℕ)
    (h : qualifyingWords text = []) : extract_keywords text topN = [] := by
  simp only [extract_keywords]
  rw [if_pos h]

theorem C8_no_tokens_empty_witness : extract_keywords "a an the" 30 = [] :=
  C8_no_tokens_empty "a an the" 30 (by decide)

/-- C7 counterexample: on `"test test test example"` the code scores
`"example"` as `1/3` (its frequency `1` divided by the maximum frequency
`3`), not `0.25` as the claim states. -/
theorem C7_counterexample :
    extract_keywords "test test test example" 30 =
      [("test", 1), ("example", 1 / 3)] ∧ ((1 : ℚ) / 3 ≠ 1 / 4) :=
  ⟨ek_test_example, by norm_num⟩

/-- C7 (amended): every returned score is `frequency / max_frequency`,
lies in `(0, 1]`, the first returned term scores exactly `1.0`, the pairs
are in descending score order with ties kept in first-encountered order
(the sort is stable), and on `"test test test example"` the term `"test"`
scores `1.0` and `"example"` scores `1/3`. -/
theorem C7_score_normalization (text : String) (topN : ℕ) (htop : 1 ≤ topN)
    (hw : qualifyingWords text ≠ []) :
    (∀ p ∈ extract_keywords text topN,
        ∃ c : ℕ, cLookup (counterN (qualifyingWords text)) p.1 = some c ∧
          p.2 = (c : ℚ) /
            ((((counterN (qualifyingWords text)).map Prod.snd).foldl max 0 : ℕ) : ℚ) ∧
          0 < p.2 ∧ p.2 ≤ 1) ∧
    ((extract_keywords text topN).map Prod.snd).head? = some 1 ∧
    (extract_keywords text topN).Pairwise (fun a b => b.2 ≤ a.2) ∧
    (∀ c : ℕ,
        (sortDesc Prod.snd (counterN (qualifyingWords text))).filter
            (fun y => decide (y.2 = c)) =
          (counterN (qualifyingWords text)).filter (fun y => decide (y.2 = c))) ∧
    extract_keywords "test test test example" 30 =
      [("test", 1), ("example", 1 / 3)] := by
  set ws := qualifyingWords text with hws
  set wf := counterN ws with hwf
  set M := (wf.map Prod.snd).foldl max 0 with hM
  have hek : extract_keywords text topN =
      (most_common wf topN).map (fun p => (p.1, (p.2 : ℚ) / (M : ℚ))) := by
    simp only [extract_keywords]
    rw [if_neg hw]
  have hwfne : wf ≠ [] := counterN_ne_nil ws hw
  have hpos : ∀ p ∈ wf, 1 ≤ p.2 := counterN_pos ws
  have hgeM : ∀ p ∈ wf, p.2 ≤ M := by
    intro p hp
    exact foldl_max_ge _ 0 p.2 (List.mem_map.mpr ⟨p, hp, rfl⟩)
  have hM1 : 1 ≤ M := by
    obtain ⟨q, qs, hqqs⟩ := List.exists_cons_of_ne_nil hwfne
    have hq : q ∈ wf := by rw [hqqs]; exact List.mem_cons_self q qs
    exact le_trans (hpos q hq) (hgeM q hq)
  have hM0 : (0 : ℚ) < (M : ℚ) := by exact_mod_cast hM1
  have hmc : ∀ p ∈ most_common wf topN, p ∈ wf := by
    intro p hp
    exact (sortDesc_perm Prod.snd wf).mem_iff.mp (List.mem_of_mem_take hp)
  refine ⟨?_, ?_, ?_, fun c => sortDesc_filter Prod.snd c wf, ek_test_example⟩
  · intro p hp
    rw [hek] at hp
    obtain ⟨q, hq, rfl⟩ := List.mem_map.mp hp
    have hqwf : q ∈ wf := hmc q hq
    refine ⟨q.2, ?_, rfl, ?_, ?_⟩
    · exact cLookup_eq_of_mem wf q.1 q.2 (counterN_nodup ws) (by simpa using hqwf)
    · exact div_pos (by exact_mod_cast lt_of_lt_of_le Nat.zero_lt_one (hpos q hqwf)) hM0
    · exact (div_le_one hM0).mpr (by exact_mod_cast hgeM q hqwf)
  · have hsne : sortDesc Prod.snd wf ≠ [] := by
      intro hnil
      refine hwfne (List.eq_nil_of_length_eq_zero ?_)
      rw [← (sortDesc_perm Prod.snd wf).length_eq, hnil]
      rfl
    obtain ⟨q0, rest, hs⟩ := List.exists_cons_of_ne_nil hsne
    have hq0wf : q0 ∈ wf := by
      refine (sortDesc_perm Prod.snd wf).mem_iff.mp ?_
      rw [hs]
      exact List.mem_cons_self q0 rest
    have hq0max : ∀ p ∈ wf, p.2 ≤ q0.2 := by
      intro p hp
      have hp2 : p ∈ sortDesc Prod.snd wf := (sortDesc_perm Prod.snd wf).mem_iff.mpr hp
      rw [hs] at hp2
      rcases List.mem_cons.mp hp2 with rfl | hp3
      · exact le_refl _
      · have hpw := sortDesc_pairwise Prod.snd wf
        rw [hs] at hpw
        exact (List.pairwise_cons.mp hpw).1 p hp3
    have hq0M : q0.2 = M := by
      refine le_antisymm (hgeM q0 hq0wf) ?_
      refine foldl_max_le _ 0 q0.2 (Nat.zero_le _) ?_
      intro y hy
      obtain ⟨p, hp, rfl⟩ := List.mem_map.mp hy
      exact hq0max p hp
    obtain ⟨t, rfl⟩ := Nat.exists_eq_succ_of_ne_zero (by omega : topN ≠ 0)
    rw [hek]
    simp only [most_common, hs, List.take_succ_cons, List.map_cons, List.head?_cons]
    rw [hq0M]
    rw [div_self (ne_of_gt hM0)]
  · rw [hek]
    rw [List.pairwise_map]
    have hsp : (most_common wf topN).Pairwise (fun a b => b.2 ≤ a.2) :=
      List.Pairwise.sublist (List.take_sublist topN _) (sortDesc_pairwise Prod.snd wf)
    refine hsp.imp ?_
    intro a b hba
    exact (div_le_div_iff_of_pos_right hM0).mpr (by exact_mod_cast hba)

theorem C7_score_normalization_witness :
    (∀ p ∈ extract_keywords "test test test example" 30,
        ∃ c : ℕ,
          cLookup (counterN (qualifyingWords "test test test example")) p.1 = some c ∧
          p.2 = (c : ℚ) /
            ((((counterN (qualifyingWords "test test test example")).map Prod.snd).foldl max 0 : ℕ) : ℚ) ∧
          0 < p.2 ∧ p.2 ≤ 1) ∧
    ((extract_keywords "test test test example" 30).map Prod.snd).head? = some 1 ∧
    (extract_keywords "test test test example" 30).Pairwise (fun a b => b.2 ≤ a.2) ∧
    (∀ c : ℕ,
        (sortDesc Prod.snd (counterN (qualifyingWords "test test test example"))).filter
            (fun y => decide (y.2 = c)) =
          (counterN (qualifyingWords "test test test example")).filter
            (fun y => decide (y.2 = c))) ∧
    extract_keywords "test test test example" 30 =
      [("test", 1), ("example", 1 / 3)] :=
  C7_score_normalization "test test test example" 30 (by norm_num) (by decide)
theorem sphereY_strict (n : ℕ) {i j : ℕ} (hij : i < j) :
    sphereY n j < sphereY n i := by
  unfold sphereY
  have hd : (0 : ℚ) < ((if 1 < n then n - 1 else 1 : ℕ) : ℚ) := by
    have h1 : 1 ≤ (if 1 < n then n - 1 else 1 : ℕ) := by
      split <;> omega
    exact_mod_cast lt_of_lt_of_le zero_lt_one (by exact_mod_cast h1)
  have h2 : (i : ℚ) / ((if 1 < n then n - 1 else 1 : ℕ) : ℚ) <
      (j : ℚ) / ((if 1 < n then n - 1 else 1 : ℕ) : ℚ) :=
    (div_lt_div_iff_of_pos_right hd).mpr (by exact_mod_cast hij)
  linarith

/-- C3: the golden-angle placement pass returns exactly `n` positions, no
two of which coincide (their `y` coordinates are strictly decreasing), for
every nonzero radius; and for `n = 1` the guarded denominator gives the
single position `(0, r, 0)`. -/
theorem C3_sphere_placement (cosA sinA : ℕ → ℚ) (sqrtq : ℚ → ℚ) (n : ℕ)
    (r : ℚ) (hr : r ≠ 0) (hs0 : sqrtq 0 = 0) :
    (placeOnSphere cosA sinA sqrtq n r).length = n ∧
    (placeOnSphere cosA sinA sqrtq n r).Pairwise (· ≠ ·) ∧
    placeOnSphere cosA sinA sqrtq 1 r = [{ x := 0, y := r, z := 0 }] := by
  refine ⟨by simp [placeOnSphere], ?_, ?_⟩
  · unfold placeOnSphere
    rw [List.pairwise_map]
    refine (List.pairwise_lt_range n).imp ?_
    intro i j hij he
    have hy : (placePoint cosA sinA sqrtq r n i).y =
        (placePoint cosA sinA sqrtq r n j).y := by rw [he]
    have hy2 : r * sphereY n i = r * sphereY n j := hy
    have hy3 : sphereY n i = sphereY n j := mul_left_cancel₀ hr hy2
    exact absurd hy3 (ne_of_gt (sphereY_strict n hij))
  · unfold placeOnSphere
    have hrange : List.range 1 = [0] := rfl
    rw [hrange]
    simp only [List.map_cons, List.map_nil]
    have hy : sphereY 1 0 = 1 := by
      unfold sphereY
      norm_num
    unfold placePoint
    rw [hy]
    norm_num [hs0]

theorem C3_sphere_placement_witness :
    ((placeOnSphere (fun _ => 0) (fun _ => 0) (fun _ => 0) 3 3).length = 3 ∧
      (placeOnSphere (fun _ => 0) (fun _ => 0) (fun _ => 0) 3 3).Pairwise (· ≠ ·) ∧
      placeOnSphere (fun _ => 0) (fun _ => 0) (fun _ => 0) 1 3 =
        [{ x := 0, y := 3, z := 0 }]) :=
  C3_sphere_placement (fun _ => 0) (fun _ => 0) (fun _ => 0) 3 3
    (by norm_num) rfl

theorem pairsBelow_mem (n i j : ℕ) :
    (i, j) ∈ pairsBelow n ↔ i < j ∧ j < n := by
  unfold pairsBelow
  simp only [List.mem_flatMap, List.mem_map, List.mem_range]
  constructor
  · rintro ⟨a, ha, b, hb, he⟩
    have hab : a = i ∧ b = j := by
      constructor <;> [exact congrArg Prod.fst he; exact congrArg Prod.snd he]
    obtain ⟨rfl, rfl⟩ := hab
    have hr := List.mem_range'_1.mp hb
    omega
  · rintro ⟨hij, hjn⟩
    exact ⟨i, by omega, j, List.mem_range'_1.mpr ⟨by omega, by omega⟩, rfl⟩

theorem edgeOK_iff (m : List (List PyFloat)) (thr : ℚ) (i j : ℕ) :
    edgeOK m thr i j = true ↔
      ∃ q : ℚ, mget? m i j = some (PyFloat.val q) ∧ thr < q := by
  unfold edgeOK
  rcases hm : mget? m i j with _ | f
  · simp
  · rcases f with q | _ | _ <;> simp [decide_eq_true_iff]

/-- C4: the document-document edge loop keeps the unordered pair `(i, j)`,
`i < j`, exactly when the matrix entry `similarity_matrix[i][j]` exists,
is neither NaN nor ±Inf, and is strictly greater than `0.3`; an entry
`≤ 0.3` (or a NaN/Inf entry) never yields a segment, and a finite entry
`> 0.3` is never omitted (`docEdgeCoord` emits one coordinate run per kept
pair). -/
theorem C4_doc_edge_iff (m : List (List PyFloat)) (n i j : ℕ) :
    (i, j) ∈ docEdgePairs m (3 / 10) n ↔
      i < j ∧ j < n ∧
        ∃ q : ℚ, mget? m i j = some (PyFloat.val q) ∧ 3 / 10 < q := by
  unfold docEdgePairs
  simp only [List.mem_filter, pairsBelow_mem, edgeOK_iff]
  tauto
theorem dot_comm : ∀ u v : List ℚ, dot u v = dot v u
  | [], [] => rfl
  | [], _ :: _ => rfl
  | _ :: _, [] => rfl
  | a :: u, b :: v => by
    unfold dot
    rw [dot_comm u v, mul_comm]

theorem calc_sim_some (sqrtq : ℚ → ℚ)
    (tfidf : List String → Option (List (List ℚ))) (rand : ℕ → ℕ → ℚ)
    (papers : List Paper) (rows : List (List ℚ))
    (hn : ¬ papers.length < 2)
    (hrows : tfidf (papers.map Paper.text) = some rows) :
    calculate_similarity sqrtq tfidf rand papers =
      cosine_similarity sqrtq rows := by
  simp only [calculate_similarity, hn, if_false, hrows]

theorem calc_sim_none (sqrtq : ℚ → ℚ)
    (tfidf : List String → Option (List (List ℚ))) (rand : ℕ → ℕ → ℚ)
    (papers : List Paper)
    (hn : ¬ papers.length < 2)
    (hfail : tfidf (papers.map Paper.text) = none) :
    calculate_similarity sqrtq tfidf rand papers =
      (List.range papers.length).map (fun i =>
        (List.range papers.length).map (fun j =>
          PyFloat.val (rand i j * (1 / 2) + 3 / 10))) := by
  simp only [calculate_similarity, hn, if_false, hfail]

theorem cosine_mget (sqrtq : ℚ → ℚ) (rows : List (List ℚ)) (i j : ℕ) :
    mget? (cosine_similarity sqrtq rows) i j =
      (rows[i]?).bind (fun ri => (rows[j]?).map (fun rj =>
        PyFloat.val (dot ri rj / (normFactor sqrtq ri * normFactor sqrtq rj)))) := by
  unfold mget? cosine_similarity
  rw [List.get?_eq_getElem?, List.getElem?_map]
  rcases rows[i]? with _ | ri
  · rfl
  · simp [List.get?_eq_getElem?, List.getElem?_map]

theorem mget_single (x : PyFloat) : ∀ i j : ℕ,
    mget? [[x]] i j = if i = 0 ∧ j = 0 then some x else none
  | 0, 0 => rfl
  | 0, _ + 1 => rfl
  | _ + 1, 0 => rfl
  | _ + 1, _ + 1 => rfl

def paperA : Paper :=
  { id := 0, name := "A", text := "alpha beta", keywords := [("alpha", 1)] }

def paperB : Paper :=
  { id := 1, name := "B", text := "gamma delta", keywords := [("gamma", 1)] }

/-- The concrete `np.random.rand` draw used in the C1 counterexample. -/
def randCex (i j : ℕ) : ℚ := ((i : ℚ) + 2 * (j : ℚ)) / 10

/-- A vectorization oracle whose first TF-IDF row is all zeros (an
all-stop-word document) while the second row is nonzero. -/
def tfidfZeroRow : List String → Option (List (List ℚ)) := fun _ => some [[0], [1]]

/-- C1 counterexample: on the fallback path (vectorization raises) with a
concrete random draw, the returned matrix is not symmetric and its
diagonal entry is not `1.0`; and even on the successful vectorization
path, a document whose TF-IDF row is all zeros gets diagonal entry `0`,
not `1.0` (sklearn keeps zero rows at zero). -/
theorem C1_counterexample :
    (mget? (calculate_similarity id (fun _ => none) randCex [paperA, paperB]) 0 1 ≠
      mget? (calculate_similarity id (fun _ => none) randCex [paperA, paperB]) 1 0 ∧
    mget? (calculate_similarity id (fun _ => none) randCex [paperA, paperB]) 0 0 ≠
      some (PyFloat.val 1)) ∧
    mget? (calculate_similarity id tfidfZeroRow randCex [paperA, paperB]) 0 0 ≠
      some (PyFloat.val 1) := by
  refine ⟨?_, ?_⟩
  · have hr2 : List.range 2 = [0, 1] := rfl
    have hm : calculate_similarity id (fun _ => none) randCex [paperA, paperB] =
        [[PyFloat.val (3 / 10), PyFloat.val (2 / 5)],
         [PyFloat.val (7 / 20), PyFloat.val (9 / 20)]] := by
      rw [calc_sim_none id (fun _ => none) randCex [paperA, paperB]
        (by norm_num) rfl]
      simp only [List.length_cons, List.length_nil, hr2, List.map_cons, List.map_nil]
      norm_num [randCex]
    rw [hm]
    refine ⟨?_, ?_⟩ <;> simp [mget?, List.get?] <;> norm_num
  · have hz : mget? (calculate_similarity id tfidfZeroRow randCex
        [paperA, paperB]) 0 0 = some (PyFloat.val 0) := by
      rw [calc_sim_some id tfidfZeroRow randCex [paperA, paperB] [[0], [1]]
        (by norm_num) rfl]
      rw [cosine_mget]
      norm_num [dot, normFactor]
    rw [hz]
    simp

/-- C1 (amended): `calculate_similarity` returns exactly `[[1.0]]` for
fewer than two documents; on the successful vectorization path the matrix
is symmetric, and, per entry, the diagonal entry of any document whose
TF-IDF row is nonzero (its squared norm has a positive exact square root)
is `1.0` — an all-zero row instead yields a `0` diagonal entry, as sklearn
maps zero rows to zero rows; the random fallback path carries no symmetry
or diagonal guarantee. -/
theorem C1_matrix_invariants (sqrtq : ℚ → ℚ)
    (tfidf : List String → Option (List (List ℚ))) (rand : ℕ → ℕ → ℚ)
    (papers : List Paper) :
    (papers.length ≤ 1 →
      calculate_similarity sqrtq tfidf rand papers = [[PyFloat.val 1]]) ∧
    (∀ rows, tfidf (papers.map Paper.text) = some rows →
      ∀ i j, mget? (calculate_similarity sqrtq tfidf rand papers) i j =
        mget? (calculate_similarity sqrtq tfidf rand papers) j i) ∧
    (∀ rows, tfidf (papers.map Paper.text) = some rows →
      ∀ i, i < papers.length →
        sqrtq (dot (rows.getD i []) (rows.getD i [])) ^ 2 =
          dot (rows.getD i []) (rows.getD i []) →
        0 < sqrtq (dot (rows.getD i []) (rows.getD i [])) →
        mget? (calculate_similarity sqrtq tfidf rand papers) i i =
          some (PyFloat.val 1)) := by
  refine ⟨?_, ?_, ?_⟩
  · intro h1
    unfold calculate_similarity
    rw [if_pos (by omega)]
  · intro rows hrows i j
    by_cases hn : papers.length < 2
    · have h1 : calculate_similarity sqrtq tfidf rand papers = [[PyFloat.val 1]] := by
        unfold calculate_similarity
        rw [if_pos hn]
      rw [h1, mget_single, mget_single]
      by_cases hi2 : i = 0
      · by_cases hj2 : j = 0
        · subst hi2
          subst hj2
          rfl
        · rw [if_neg (by tauto), if_neg (by tauto)]
      · rw [if_neg (by tauto), if_neg (by tauto)]
    · rw [calc_sim_some sqrtq tfidf rand papers rows hn hrows]
      rw [cosine_mget, cosine_mget]
      rcases rows[i]? with _ | ri <;> rcases hj : rows[j]? with _ | rj
      · rfl
      · rfl
      · rfl
      · simp only [Option.some_bind, Option.map_some']
        rw [dot_comm rj ri, mul_comm (normFactor sqrtq rj) (normFactor sqrtq ri)]
  · intro rows hrows i hi hsqr hpos
    by_cases hn : papers.length < 2
    · have h1 : calculate_similarity sqrtq tfidf rand papers = [[PyFloat.val 1]] := by
        unfold calculate_similarity
        rw [if_pos hn]
      have hi0 : i = 0 := by omega
      subst hi0
      rw [h1, mget_single]
      rw [if_pos ⟨rfl, rfl⟩]
    · rw [calc_sim_some sqrtq tfidf rand papers rows hn hrows]
      rw [cosine_mget]
      by_cases hir : i < rows.length
      · rw [List.getD_eq_getElem rows [] hir] at hsqr hpos
        rw [List.getElem?_eq_getElem hir]
        simp only [Option.some_bind, Option.map_some']
        have hnf : normFactor sqrtq rows[i] = sqrtq (dot rows[i] rows[i]) := by
          unfold normFactor
          rw [if_neg (ne_of_gt hpos)]
        rw [hnf]
        have hd : dot rows[i] rows[i] ≠ 0 := by
          intro h0
          rw [h0] at hsqr hpos
          have hz : sqrtq 0 = 0 := by nlinarith [sq_nonneg (sqrtq 0)]
          rw [hz] at hpos
          exact lt_irrefl 0 hpos
        have hmul : sqrtq (dot rows[i] rows[i]) * sqrtq (dot rows[i] rows[i]) =
            dot rows[i] rows[i] := by nlinarith [hsqr]
        rw [hmul, div_self hd]
      · exfalso
        rw [List.getD_eq_default rows [] (by omega)] at hsqr hpos
        have hdot : dot ([] : List ℚ) [] = 0 := rfl
        rw [hdot] at hsqr hpos
        have hz : sqrtq 0 = 0 := by nlinarith [sq_nonneg (sqrtq 0)]
        rw [hz] at hpos
        exact lt_irrefl 0 hpos
/-- The vectorization oracle used by witnesses: an identity-like TF-IDF
matrix for two documents. -/
def tfidfEye : List String → Option (List (List ℚ)) := fun _ => some [[1, 0], [0, 1]]

theorem C1_matrix_invariants_witness :
    calculate_similarity id tfidfEye randCex [paperA] = [[PyFloat.val 1]] ∧
    mget? (calculate_similarity id tfidfEye randCex [paperA, paperB]) 0 1 =
      mget? (calculate_similarity id tfidfEye randCex [paperA, paperB]) 1 0 ∧
    mget? (calculate_similarity id tfidfEye randCex [paperA, paperB]) 1 1 =
      some (PyFloat.val 1) :=
  ⟨(C1_matrix_invariants id tfidfEye randCex [paperA]).1 (by simp),
   (C1_matrix_invariants id tfidfEye randCex [paperA, paperB]).2.1
     [[1, 0], [0, 1]] rfl 0 1,
   (C1_matrix_invariants id tfidfEye randCex [paperA, paperB]).2.2
     [[1, 0], [0, 1]] rfl 1 (by norm_num)
     (by norm_num [List.getD, dot]) (by norm_num [List.getD, dot])⟩

/-- C6: when vectorization raises (oracle `none`) and there are at least
two documents, `calculate_similarity` does not propagate the error: it
returns an n-by-n matrix whose every entry is `rand i j * 0.5 + 0.3`, so
with draws in `[0, 1)` every entry lies in the closed interval
`[0.3, 0.8]` (indeed in `[0.3, 0.8)`). -/
theorem C6_fallback_bounds (sqrtq : ℚ → ℚ)
    (tfidf : List String → Option (List (List ℚ))) (rand : ℕ → ℕ → ℚ)
    (papers : List Paper)
    (hn : 2 ≤ papers.length)
    (hfail : tfidf (papers.map Paper.text) = none)
    (hr : ∀ i j, 0 ≤ rand i j ∧ rand i j < 1) :
    (calculate_similarity sqrtq tfidf rand papers).length = papers.length ∧
    (∀ row ∈ calculate_similarity sqrtq tfidf rand papers,
      row.length = papers.length) ∧
    (∀ i j, i < papers.length → j < papers.length →
      ∃ q : ℚ, mget? (calculate_similarity sqrtq tfidf rand papers) i j =
        some (PyFloat.val q) ∧ 3 / 10 ≤ q ∧ q ≤ 4 / 5) := by
  have hn2 : ¬ papers.length < 2 := by omega
  rw [calc_sim_none sqrtq tfidf rand papers hn2 hfail]
  refine ⟨by simp, ?_, ?_⟩
  · intro row hrow
    obtain ⟨i, hi, rfl⟩ := List.mem_map.mp hrow
    simp
  · intro i j hi hj
    refine ⟨rand i j * (1 / 2) + 3 / 10, ?_, ?_, ?_⟩
    · unfold mget?
      rw [List.get?_eq_getElem?, List.getElem?_map, List.getElem?_range hi]
      simp only [Option.map_some', Option.some_bind]
      rw [List.get?_eq_getElem?, List.getElem?_map, List.getElem?_range hj]
      rfl
    · have h1 := (hr i j).1
      linarith
    · have h2 := (hr i j).2
      linarith

/-- The constant `np.random.rand` draw used by the C6 witness. -/
def randHalf : ℕ → ℕ → ℚ := fun _ _ => 1 / 2

theorem C6_fallback_bounds_witness :
    (calculate_similarity id (fun _ => none) randHalf [paperA, paperB]).length =
      [paperA, paperB].length ∧
    (∀ row ∈ calculate_similarity id (fun _ => none) randHalf [paperA, paperB],
      row.length = [paperA, paperB].length) ∧
    (∀ i j, i < [paperA, paperB].length → j < [paperA, paperB].length →
      ∃ q : ℚ, mget? (calculate_similarity id (fun _ => none) randHalf
          [paperA, paperB]) i j =
        some (PyFloat.val q) ∧ 3 / 10 ≤ q ∧ q ≤ 4 / 5) :=
  C6_fallback_bounds id (fun _ => none) randHalf [paperA, paperB]
    (by simp) rfl (fun i j => ⟨by norm_num [randHalf], by norm_num [randHalf]⟩)

/-- A document with 20 distinct keywords, for the C2 counterexample. -/
def paperK1 : Paper :=
  { id := 0, name := "K1", text := "t1", keywords :=
      [("k01", 1), ("k02", 1), ("k03", 1), ("k04", 1), ("k05", 1),
       ("k06", 1), ("k07", 1), ("k08", 1), ("k09", 1), ("k10", 1),
       ("k11", 1), ("k12", 1), ("k13", 1), ("k14", 1), ("k15", 1),
       ("k16", 1), ("k17", 1), ("k18", 1), ("k19", 1), ("k20", 1)] }

/-- A document with 6 further distinct keywords, for the C2 counterexample. -/
def paperK2 : Paper :=
  { id := 1, name := "K2", text := "t2", keywords :=
      [("k21", 1), ("k22", 1), ("k23", 1), ("k24", 1), ("k25", 1),
       ("k26", 1)] }

/-- C2 counterexample: two documents whose top-20 slices contribute 26
distinct terms make the assembled view carry 26 keyword nodes, more than
the claimed cap of 25 (the code keeps `most_common(30)`). -/
theorem C2_counterexample :
    25 < (buildNetworkData (fun _ => 0) (fun _ => 0) (fun _ => 0)
        (fun _ => none) (fun _ _ => 0) [paperK1, paperK2]).keyword_labels.length := by
  have hb : (buildNetworkData (fun _ => 0) (fun _ => 0) (fun _ => 0)
      (fun _ => none) (fun _ _ => 0) [paperK1, paperK2]).keyword_labels =
      (most_common (allKeywordsOf [paperK1, paperK2]) 30).map Prod.fst := by
    unfold buildNetworkData
    rw [if_neg (by decide), if_neg (by decide), if_neg (by decide)]
  rw [hb]
  decide

/-- The spec-level aggregate weight of a term: the sum of its scores over
the top-20 keyword slice of every document. -/
def sumScores (papers : List Paper) (kw : String) : ℚ :=
  (((papers.flatMap (fun p => p.keywords.take 20)).filter
      (fun q => q.1 == kw)).map Prod.snd).sum

theorem allKeywordsOf_eq_flat (papers : List Paper) :
    allKeywordsOf papers =
      (papers.flatMap (fun p => p.keywords.take 20)).foldl counterAddQ [] := by
  suffices h : ∀ (ps : List Paper) (acc : List (String × ℚ)),
      ps.foldl (fun acc p => (p.keywords.take 20).foldl counterAddQ acc) acc =
        (ps.flatMap (fun p => p.keywords.take 20)).foldl counterAddQ acc by
    exact h papers []
  intro ps
  induction ps with
  | nil => intro acc; rfl
  | cons p rest ih =>
    intro acc
    rw [List.foldl_cons, List.flatMap_cons, List.foldl_append]
    exact ih _

theorem cLookup_cons {β : Type} (q : String × β) (qs : List (String × β))
    (k : String) :
    cLookup (q :: qs) k = if q.1 == k then some q.2 else cLookup qs k := by
  unfold cLookup
  rw [List.find?_cons]
  cases hq : (q.1 == k)
  · rw [if_neg (by simp)]
  · rw [if_pos rfl]
    rfl

theorem cLookup_append {β : Type} (l1 l2 : List (String × β)) (k : String) :
    cLookup (l1 ++ l2) k =
      match cLookup l1 k with
      | some w => some w
      | none => cLookup l2 k := by
  induction l1 with
  | nil => rfl
  | cons q qs ih =>
    rw [List.cons_append, cLookup_cons, cLookup_cons]
    by_cases hq : (q.1 == k) = true
    · rw [if_pos hq, if_pos hq]
    · rw [if_neg hq, if_neg hq]
      exact ih

theorem cLookup_any {β : Type} (acc : List (String × β)) (k : String) :
    acc.any (fun p => p.1 == k) = (cLookup acc k).isSome := by
  induction acc with
  | nil => rfl
  | cons q qs ih =>
    rw [List.any_cons, cLookup_cons]
    by_cases hq : (q.1 == k) = true
    · rw [if_pos hq, hq]
      rfl
    · rw [if_neg hq]
      rw [show (q.1 == k) = false from by simpa using hq]
      rw [Bool.false_or]
      exact ih

theorem cLookup_map_upd (acc : List (String × ℚ)) (kv : String × ℚ)
    (k : String) :
    cLookup (acc.map (fun p => if p.1 == kv.1 then (p.1, p.2 + kv.2) else p)) k =
      (cLookup acc k).map (fun w => if kv.1 == k then w + kv.2 else w) := by
  induction acc with
  | nil => rfl
  | cons q qs ih =>
    rw [List.map_cons, cLookup_cons, cLookup_cons]
    rw [show ((if q.1 == kv.1 then (q.1, q.2 + kv.2) else q) : String × ℚ).1 =
      q.1 from by split <;> rfl]
    by_cases hq : (q.1 == k) = true
    · rw [if_pos hq, if_pos hq]
      have hqk : q.1 = k := by simpa using hq
      by_cases hkv : (kv.1 == k) = true
      · have hkvk : kv.1 = k := by simpa using hkv
        have hqkv : (q.1 == kv.1) = true := by simp [hqk, hkvk]
        rw [if_pos hqkv]
        simp [hkv]
      · have hqkv : ¬ (q.1 == kv.1) = true := by
          intro hc
          have h2 : q.1 = kv.1 := by simpa using hc
          exact hkv (by simp [← h2, hqk])
        rw [if_neg hqkv]
        simp only [Option.map_some']
        rw [show (kv.1 == k) = false from by simpa using hkv]
        simp
    · rw [if_neg hq, if_neg hq]
      exact ih

theorem cLookup_counterAddQ (acc : List (String × ℚ)) (kv : String × ℚ)
    (k : String) :
    cLookup (counterAddQ acc kv) k =
      if kv.1 == k then some ((cLookup acc k).getD 0 + kv.2)
      else cLookup acc k := by
  by_cases hk : (kv.1 == k) = true
  · have hkk : kv.1 = k := by simpa using hk
    subst hkk
    rw [if_pos hk]
    unfold counterAddQ
    split
    · rename_i hany
      rw [cLookup_map_upd]
      rcases hl : cLookup acc kv.1 with _ | w
      · exfalso
        rw [cLookup_any acc kv.1, hl] at hany
        cases hany
      · simp [hl]
    · rename_i hany
      have hnone : cLookup acc kv.1 = none := by
        rcases hl : cLookup acc kv.1 with _ | w
        · rfl
        · exfalso
          refine hany ?_
          rw [cLookup_any acc kv.1, hl]
          rfl
      rw [cLookup_append, hnone, cLookup_cons]
      rw [if_pos (by simp)]
      simp
  · rw [if_neg hk]
    unfold counterAddQ
    split
    · rw [cLookup_map_upd]
      rcases hl : cLookup acc k with _ | w
      · simp [hl]
      · simp only [hl, Option.map_some']
        rw [show (kv.1 == k) = false from by simpa using hk]
        simp
    · rw [cLookup_append, cLookup_cons]
      rw [show (kv.1 == k) = false from by simpa using hk]
      rcases hl : cLookup acc k with _ | w
      · rfl
      · simp

theorem cLookup_foldl_counterAddQ :
    ∀ (L : List (String × ℚ)) (acc : List (String × ℚ)) (k : String),
      cLookup (L.foldl counterAddQ acc) k =
        if L.any (fun q => q.1 == k) then
          some ((cLookup acc k).getD 0 +
            ((L.filter (fun q => q.1 == k)).map Prod.snd).sum)
        else cLookup acc k
  | [], acc, k => by simp
  | kv :: L2, acc, k => by
    rw [List.foldl_cons]
    rw [cLookup_foldl_counterAddQ L2 (counterAddQ acc kv) k]
    rw [cLookup_counterAddQ]
    by_cases hk : (kv.1 == k) = true
    · have hc : ((kv :: L2).any (fun q => q.1 == k)) = true := by
        simp [List.any_cons, hk]
      have hfc : (kv :: L2).filter (fun q => q.1 == k) =
          kv :: L2.filter (fun q => q.1 == k) := by
        rw [List.filter_cons, if_pos hk]
      rw [if_pos hk, hc, if_pos rfl, hfc]
      by_cases h2 : (L2.any (fun q => q.1 == k)) = true
      · rw [if_pos h2]
        simp [add_assoc]
      · rw [if_neg h2]
        have hf0 : L2.filter (fun q => q.1 == k) = [] := by
          rw [List.filter_eq_nil_iff]
          exact List.any_eq_false.mp (Bool.eq_false_iff.mpr h2)
        rw [hf0]
        simp
    · have hkf : (kv.1 == k) = false := by simpa using hk
      have hc : ((kv :: L2).any (fun q => q.1 == k)) =
          (L2.any (fun q => q.1 == k)) := by
        simp [List.any_cons, hkf]
      have hfc : (kv :: L2).filter (fun q => q.1 == k) =
          L2.filter (fun q => q.1 == k) := by
        rw [List.filter_cons, if_neg hk]
      rw [if_neg hk, hc, hfc]

theorem aggregate_weight (papers : List Paper) (kw : String) :
    (cLookup (allKeywordsOf papers) kw).getD 0 = sumScores papers kw := by
  rw [allKeywordsOf_eq_flat, cLookup_foldl_counterAddQ]
  by_cases h : ((papers.flatMap (fun p => p.keywords.take 20)).any
      (fun q => q.1 == kw)) = true
  · rw [if_pos h]
    simp [sumScores, cLookup]
  · rw [if_neg h]
    have hf0 : (papers.flatMap (fun p => p.keywords.take 20)).filter
        (fun q => q.1 == kw) = [] := by
      rw [List.filter_eq_nil_iff]
      exact List.any_eq_false.mp (Bool.eq_false_iff.mpr h)
    simp [sumScores, cLookup, hf0]

theorem most_common_top {α β : Type} [LinearOrder β] (l : List (α × β))
    (n : ℕ) (p : α × β) (hp : p ∈ l) (hnp : p ∉ most_common l n)
    (q : α × β) (hq : q ∈ most_common l n) : p.2 ≤ q.2 := by
  have hsp := sortDesc_pairwise Prod.snd l
  have hps : p ∈ sortDesc Prod.snd l := (sortDesc_perm Prod.snd l).mem_iff.mpr hp
  rw [← List.take_append_drop n (sortDesc Prod.snd l)] at hps hsp
  rcases List.mem_append.mp hps with h1 | h2
  · exact absurd h1 hnp
  · exact (List.pairwise_append.mp hsp).2.2 q hq p h2

theorem build_labels_cases (cosA sinA : ℕ → ℚ) (sqrtq : ℚ → ℚ)
    (tfidf : List String → Option (List (List ℚ))) (rand : ℕ → ℕ → ℚ)
    (papers : List Paper) :
    (buildNetworkData cosA sinA sqrtq tfidf rand papers).keyword_labels = [] ∨
    (buildNetworkData cosA sinA sqrtq tfidf rand papers).keyword_labels =
      (most_common (allKeywordsOf papers) 30).map Prod.fst := by
  by_cases h0 : papers = []
  · left
    simp [buildNetworkData, h0, emptyNetworkData]
  · by_cases h1 : allKeywordsOf papers = []
    · left
      simp [buildNetworkData, h0, h1, emptyNetworkData]
    · by_cases h2 : (most_common (allKeywordsOf papers) 30).map Prod.fst = []
      · left
        simp [buildNetworkData, h0, h1, h2, emptyNetworkData]
      · right
        simp [buildNetworkData, h0, h1, h2]

/-- C2 (amended): the aggregate keyword set sums per-term scores over the
top-20 slice of each document (`aggregate_weight` conjunct) and the assembled view
retains `most_common(30)`: at most **30** keyword nodes (not 25; the 25
cap only appears later, as the default `max_keywords` of
`filter_network_data`),
listed in descending aggregate weight, every omitted term weighing no more
than every retained one, and ties kept in first-appearance order. -/
theorem C2_top30_aggregate (cosA sinA : ℕ → ℚ) (sqrtq : ℚ → ℚ)
    (tfidf : List String → Option (List (List ℚ))) (rand : ℕ → ℕ → ℚ)
    (papers : List Paper) :
    ((buildNetworkData cosA sinA sqrtq tfidf rand papers).keyword_labels = [] ∨
      (buildNetworkData cosA sinA sqrtq tfidf rand papers).keyword_labels =
        (most_common (allKeywordsOf papers) 30).map Prod.fst) ∧
    (buildNetworkData cosA sinA sqrtq tfidf rand papers).keyword_labels.length ≤ 30 ∧
    (∀ kw, (cLookup (allKeywordsOf papers) kw).getD 0 = sumScores papers kw) ∧
    (most_common (allKeywordsOf papers) 30).Pairwise (fun a b => b.2 ≤ a.2) ∧
    (∀ p ∈ allKeywordsOf papers, p ∉ most_common (allKeywordsOf papers) 30 →
      ∀ q ∈ most_common (allKeywordsOf papers) 30, p.2 ≤ q.2) ∧
    (∀ c : ℚ, (sortDesc Prod.snd (allKeywordsOf papers)).filter
        (fun y => decide (y.2 = c)) =
      (allKeywordsOf papers).filter (fun y => decide (y.2 = c))) := by
  refine ⟨build_labels_cases cosA sinA sqrtq tfidf rand papers, ?_,
    aggregate_weight papers,
    List.Pairwise.sublist (List.take_sublist 30 _) (sortDesc_pairwise Prod.snd _),
    most_common_top (allKeywordsOf papers) 30,
    fun c => sortDesc_filter Prod.snd c (allKeywordsOf papers)⟩
  rcases build_labels_cases cosA sinA sqrtq tfidf rand papers with h | h
  · rw [h]
    simp
  · rw [h]
    rw [List.length_map]
    exact le_trans (List.length_take_le 30 _) (le_refl 30)

theorem calc_sim_rand_irrel (sqrtq : ℚ → ℚ)
    (tfidf : List String → Option (List (List ℚ))) (r1 r2 : ℕ → ℕ → ℚ)
    (papers : List Paper)
    (h : (tfidf (papers.map Paper.text)).isSome) :
    calculate_similarity sqrtq tfidf r1 papers =
      calculate_similarity sqrtq tfidf r2 papers := by
  by_cases hn : papers.length < 2
  · unfold calculate_similarity
    rw [if_pos hn, if_pos hn]
  · rcases ho : tfidf (papers.map Paper.text) with _ | rows
    · rw [ho] at h
      cases h
    · rw [calc_sim_some sqrtq tfidf r1 papers rows hn ho,
        calc_sim_some sqrtq tfidf r2 papers rows hn ho]

/-- C9: the assembly pipeline is deterministic on the non-fallback
similarity path: the only nondeterminism in the source is
`np.random.rand`, and when vectorization succeeds the random source is
never consulted, so two runs (with arbitrary, possibly different, random
sources) produce identical views. -/
theorem C9_build_deterministic (cosA sinA : ℕ → ℚ) (sqrtq : ℚ → ℚ)
    (tfidf : List String → Option (List (List ℚ))) (r1 r2 : ℕ → ℕ → ℚ)
    (papers : List Paper)
    (h : (tfidf (papers.map Paper.text)).isSome) :
    buildNetworkData cosA sinA sqrtq tfidf r1 papers =
      buildNetworkData cosA sinA sqrtq tfidf r2 papers := by
  have hs := calc_sim_rand_irrel sqrtq tfidf r1 r2 papers h
  unfold buildNetworkData
  rw [hs]

theorem C9_build_deterministic_witness :
    buildNetworkData (fun _ => 0) (fun _ => 0) (fun _ => 0) tfidfEye randCex
        [paperA, paperB] =
      buildNetworkData (fun _ => 0) (fun _ => 0) (fun _ => 0) tfidfEye randHalf
        [paperA, paperB] :=
  C9_build_deterministic (fun _ => 0) (fun _ => 0) (fun _ => 0) tfidfEye
    randCex randHalf [paperA, paperB] rfl

theorem trunc_sim (nd : NetworkData) (k : ℕ) :
    (truncKeywords nd k).similarity_matrix = nd.similarity_matrix := by
  unfold truncKeywords
  split <;> rfl

theorem trunc_ppos (nd : NetworkData) (k : ℕ) :
    (truncKeywords nd k).paper_positions = nd.paper_positions := by
  unfold truncKeywords
  split <;> rfl

theorem trunc_kpos (nd : NetworkData) (k : ℕ) :
    (truncKeywords nd k).keyword_positions = nd.keyword_positions := by
  unfold truncKeywords
  split <;> rfl

theorem trunc_labels_le (nd : NetworkData) (k : ℕ) :
    (truncKeywords nd k).keyword_labels.length ≤ k := by
  unfold truncKeywords
  split
  · rename_i h
    simp only [List.length_take]
    omega
  · rename_i h
    omega

theorem trunc_noop (nd : NetworkData) (k : ℕ)
    (h : nd.keyword_labels.length ≤ k) : truncKeywords nd k = nd := by
  unfold truncKeywords
  rw [if_neg (by omega)]

theorem filter_sim (nd : NetworkData) (papers : List Paper) (s : ℚ) (k : ℕ) :
    (filter_network_data nd papers s k).similarity_matrix =
      nd.similarity_matrix :=
  trunc_sim nd k

theorem filter_ppos (nd : NetworkData) (papers : List Paper) (s : ℚ) (k : ℕ) :
    (filter_network_data nd papers s k).paper_positions =
      nd.paper_positions :=
  trunc_ppos nd k

theorem filter_kpos (nd : NetworkData) (papers : List Paper) (s : ℚ) (k : ℕ) :
    (filter_network_data nd papers s k).keyword_positions =
      nd.keyword_positions :=
  trunc_kpos nd k

theorem filter_labels (nd : NetworkData) (papers : List Paper) (s : ℚ) (k : ℕ) :
    (filter_network_data nd papers s k).keyword_labels =
      (truncKeywords nd k).keyword_labels := rfl

theorem filter_edge_x (nd : NetworkData) (papers : List Paper) (s : ℚ) (k : ℕ) :
    (filter_network_data nd papers s k).edge_x =
      docEdgeCoord Vec3.x nd.similarity_matrix nd.paper_positions s
        papers.length := rfl

theorem filter_edge_y (nd : NetworkData) (papers : List Paper) (s : ℚ) (k : ℕ) :
    (filter_network_data nd papers s k).edge_y =
      docEdgeCoord Vec3.y nd.similarity_matrix nd.paper_positions s
        papers.length := rfl

theorem filter_edge_z (nd : NetworkData) (papers : List Paper) (s : ℚ) (k : ℕ) :
    (filter_network_data nd papers s k).edge_z =
      docEdgeCoord Vec3.z nd.similarity_matrix nd.paper_positions s
        papers.length := rfl

theorem filter_kwe_x (nd : NetworkData) (papers : List Paper) (s : ℚ) (k : ℕ) :
    (filter_network_data nd papers s k).keyword_edge_x =
      kwEdgeCoordF Vec3.x papers nd.paper_positions
        (truncKeywords nd k).keyword_labels nd.keyword_positions s := rfl

theorem filter_kwe_y (nd : NetworkData) (papers : List Paper) (s : ℚ) (k : ℕ) :
    (filter_network_data nd papers s k).keyword_edge_y =
      kwEdgeCoordF Vec3.y papers nd.paper_positions
        (truncKeywords nd k).keyword_labels nd.keyword_positions s := rfl

theorem filter_kwe_z (nd : NetworkData) (papers : List Paper) (s : ℚ) (k : ℕ) :
    (filter_network_data nd papers s k).keyword_edge_z =
      kwEdgeCoordF Vec3.z papers nd.paper_positions
        (truncKeywords nd k).keyword_labels nd.keyword_positions s := rfl

theorem NetworkData.ext_all (a b : NetworkData)
    (h1 : a.edge_x = b.edge_x) (h2 : a.edge_y = b.edge_y)
    (h3 : a.edge_z = b.edge_z)
    (h4 : a.keyword_edge_x = b.keyword_edge_x)
    (h5 : a.keyword_edge_y = b.keyword_edge_y)
    (h6 : a.keyword_edge_z = b.keyword_edge_z)
    (h7 : a.paper_x = b.paper_x) (h8 : a.paper_y = b.paper_y)
    (h9 : a.paper_z = b.paper_z)
    (h10 : a.paper_labels = b.paper_labels)
    (h11 : a.paper_hover = b.paper_hover)
    (h12 : a.paper_ids = b.paper_ids)
    (h13 : a.keyword_x = b.keyword_x) (h14 : a.keyword_y = b.keyword_y)
    (h15 : a.keyword_z = b.keyword_z)
    (h16 : a.keyword_labels = b.keyword_labels)
    (h17 : a.keyword_hover = b.keyword_hover)
    (h18 : a.all_keywords = b.all_keywords)
    (h19 : a.paper_positions = b.paper_positions)
    (h20 : a.keyword_positions = b.keyword_positions)
    (h21 : a.similarity_matrix = b.similarity_matrix) : a = b := by
  cases a
  cases b
  congr 1

/-- C5: `filter_network_data` is idempotent: applying it twice with the
same documents, threshold and keyword cap gives the same view as applying
it once (the second truncation is a no-op and the edges are recomputed
from the unchanged similarity matrix, positions and truncated labels). -/
theorem C5_filter_idempotent (nd : NetworkData) (papers : List Paper)
    (s : ℚ) (k : ℕ) :
    filter_network_data (filter_network_data nd papers s k) papers s k =
      filter_network_data nd papers s k := by
  have hlen : (filter_network_data nd papers s k).keyword_labels.length ≤ k := by
    rw [filter_labels]
    exact trunc_labels_le nd k
  have htr := trunc_noop (filter_network_data nd papers s k) k hlen
  refine NetworkData.ext_all _ _ ?_ ?_ ?_ ?_ ?_ ?_ ?_ ?_ ?_ ?_ ?_ ?_ ?_ ?_ ?_
    ?_ ?_ ?_ ?_ ?_ ?_
  · rw [filter_edge_x, filter_sim, filter_ppos, ← filter_edge_x nd papers s k]
  · rw [filter_edge_y, filter_sim, filter_ppos, ← filter_edge_y nd papers s k]
  · rw [filter_edge_z, filter_sim, filter_ppos, ← filter_edge_z nd papers s k]
  · rw [filter_kwe_x, htr, filter_labels, filter_ppos, filter_kpos,
      ← filter_kwe_x nd papers s k]
  · rw [filter_kwe_y, htr, filter_labels, filter_ppos, filter_kpos,
      ← filter_kwe_y nd papers s k]
  · rw [filter_kwe_z, htr, filter_labels, filter_ppos, filter_kpos,
      ← filter_kwe_z nd papers s k]
  · show (truncKeywords (filter_network_data nd papers s k) k).paper_x =
        (filter_network_data nd papers s k).paper_x
    exact congrArg NetworkData.paper_x htr
  · show (truncKeywords (filter_network_data nd papers s k) k).paper_y =
        (filter_network_data nd papers s k).paper_y
    exact congrArg NetworkData.paper_y htr
  · show (truncKeywords (filter_network_data nd papers s k) k).paper_z =
        (filter_network_data nd papers s k).paper_z
    exact congrArg NetworkData.paper_z htr
  · show (truncKeywords (filter_network_data nd papers s k) k).paper_labels =
        (filter_network_data nd papers s k).paper_labels
    exact congrArg NetworkData.paper_labels htr
  · show (truncKeywords (filter_network_data nd papers s k) k).paper_hover =
        (filter_network_data nd papers s k).paper_hover
    exact congrArg NetworkData.paper_hover htr
  · show (truncKeywords (filter_network_data nd papers s k) k).paper_ids =
        (filter_network_data nd papers s k).paper_ids
    exact congrArg NetworkData.paper_ids htr
  · show (truncKeywords (filter_network_data nd papers s k) k).keyword_x =
        (filter_network_data nd papers s k).keyword_x
    exact congrArg NetworkData.keyword_x htr
  · show (truncKeywords (filter_network_data nd papers s k) k).keyword_y =
        (filter_network_data nd papers s k).keyword_y
    exact congrArg NetworkData.keyword_y htr
  · show (truncKeywords (filter_network_data nd papers s k) k).keyword_z =
        (filter_network_data nd papers s k).keyword_z
    exact congrArg NetworkData.keyword_z htr
  · show (truncKeywords (filter_network_data nd papers s k) k).keyword_labels =
        (filter_network_data nd papers s k).keyword_labels
    exact congrArg NetworkData.keyword_labels htr
  · show (truncKeywords (filter_network_data nd papers s k) k).keyword_hover =
        (filter_network_data nd papers s k).keyword_hover
    exact congrArg NetworkData.keyword_hover htr
  · show (truncKeywords (filter_network_data nd papers s k) k).all_keywords =
        (filter_network_data nd papers s k).all_keywords
    exact congrArg NetworkData.all_keywords htr
  · show (truncKeywords (filter_network_data nd papers s k) k).paper_positions =
        (filter_network_data nd papers s k).paper_positions
    exact congrArg NetworkData.paper_positions htr
  · show (truncKeywords (filter_network_data nd papers s k) k).keyword_positions =
        (filter_network_data nd papers s k).keyword_positions
    exact congrArg NetworkData.keyword_positions htr
  · show (truncKeywords (filter_network_data nd papers s k) k).similarity_matrix =
        (filter_network_data nd papers s k).similarity_matrix
    exact congrArg NetworkData.similarity_matrix htr

theorem push_get_lt (h : Heap) (v : PyObj) (l : ℕ)
    (hl : l < h.objs.length) :
    (h.push v).objs.get? l = h.objs.get? l := by
  unfold Heap.push
  simp only [List.get?_eq_getElem?]
  rw [List.getElem?_append, if_pos hl]

theorem put_get_ne (h : Heap) (loc : ℕ) (v : PyObj) (l : ℕ)
    (hne : loc ≠ l) :
    (h.put loc v).objs.get? l = h.objs.get? l := by
  unfold Heap.put
  simp only [List.get?_eq_getElem?]
  exact List.getElem?_set_ne hne

/-- Heap `h1` extends heap `h0` without touching the first `n` locations. -/
def SafeExt (n : ℕ) (h0 h1 : Heap) : Prop :=
  n ≤ h1.objs.length ∧ ∀ l, l < n → h1.objs.get? l = h0.objs.get? l

theorem safeExt_push (n : ℕ) (h0 h1 : Heap) (v : PyObj)
    (he : SafeExt n h0 h1) : SafeExt n h0 (h1.push v) := by
  refine ⟨?_, ?_⟩
  · unfold Heap.push
    simp only [List.length_append, List.length_cons, List.length_nil]
    have hn := he.1
    omega
  · intro l hl
    rw [push_get_lt h1 v l (lt_of_lt_of_le hl he.1)]
    exact he.2 l hl

theorem safeExt_put (n : ℕ) (h0 h1 : Heap) (loc : ℕ) (v : PyObj)
    (he : SafeExt n h0 h1) (hloc : n ≤ loc) : SafeExt n h0 (h1.put loc v) := by
  refine ⟨?_, ?_⟩
  · unfold Heap.put
    simp only [List.length_set]
    exact he.1
  · intro l hl
    rw [put_get_ne h1 loc v l (by omega)]
    exact he.2 l hl

theorem truncPass_safe (n : ℕ) (h0 h1 : Heap) (d fd : DictRef)
    (fdLoc maxK : ℕ) (he : SafeExt n h0 h1) (hloc : n ≤ fdLoc) :
    SafeExt n h0 (truncPass h1 d fd fdLoc maxK).1 := by
  unfold truncPass
  split
  · refine safeExt_put _ _ _ _ _ ?_ hloc
    refine safeExt_push _ _ _ _ ?_
    refine safeExt_push _ _ _ _ ?_
    refine safeExt_push _ _ _ _ ?_
    refine safeExt_push _ _ _ _ ?_
    exact safeExt_push _ _ _ _ he
  · exact he

theorem docEdgePass_safe (n : ℕ) (h0 h1 : Heap) (d fd : DictRef)
    (fdLoc : ℕ) (papers : List Paper) (minS : ℚ)
    (he : SafeExt n h0 h1) (hloc : n ≤ fdLoc) :
    SafeExt n h0 (docEdgePass h1 d fd fdLoc papers minS).1 := by
  unfold docEdgePass
  refine safeExt_put _ _ _ _ _ ?_ hloc
  refine safeExt_push _ _ _ _ ?_
  refine safeExt_push _ _ _ _ ?_
  exact safeExt_push _ _ _ _ he

theorem kwEdgePass_safe (n : ℕ) (h0 h1 : Heap) (d fd : DictRef)
    (fdLoc : ℕ) (papers : List Paper) (minS : ℚ)
    (he : SafeExt n h0 h1) (hloc : n ≤ fdLoc) :
    SafeExt n h0 (kwEdgePass h1 d fd fdLoc papers minS).1 := by
  unfold kwEdgePass
  refine safeExt_put _ _ _ _ _ ?_ hloc
  refine safeExt_push _ _ _ _ ?_
  refine safeExt_push _ _ _ _ ?_
  exact safeExt_push _ _ _ _ he

/-- C10: the heap-level run of `filter_network_data` never mutates any
preexisting object: every location that exists before the call (the input
dict itself and every list, position map and matrix it points to) holds
the same object afterwards; all writes go to the freshly allocated copy
and fresh lists. -/
theorem C10_filter_no_mutation (h : Heap) (ndLoc : ℕ) (papers : List Paper)
    (minS : ℚ) (maxK : ℕ) :
    ∀ l, l < h.objs.length →
      ((filterRun h ndLoc papers minS maxK).1).objs.get? l = h.objs.get? l := by
  intro l hl
  unfold filterRun
  rcases hd : h.get ndLoc with _ | obj
  · rfl
  · rcases obj with v | v | v | v | v | v | v | v | d
    · rfl
    · rfl
    · rfl
    · rfl
    · rfl
    · rfl
    · rfl
    · rfl
    · have he0 : SafeExt h.objs.length h h := ⟨le_refl _, fun _ _ => rfl⟩
      have he1 : SafeExt h.objs.length h (h.push (PyObj.pydict d)) :=
        safeExt_push _ _ _ _ he0
      have he2 := truncPass_safe h.objs.length h (h.push (PyObj.pydict d)) d d
        h.allocLoc maxK he1 (le_refl _)
      have he3 := docEdgePass_safe h.objs.length h _ d
        (truncPass (h.push (PyObj.pydict d)) d d h.allocLoc maxK).2
        h.allocLoc papers minS he2 (le_refl _)
      have he4 := kwEdgePass_safe h.objs.length h _ d
        (docEdgePass (truncPass (h.push (PyObj.pydict d)) d d h.allocLoc maxK).1
          d (truncPass (h.push (PyObj.pydict d)) d d h.allocLoc maxK).2
          h.allocLoc papers minS).2
        h.allocLoc papers minS he3 (le_refl _)
      exact he4.2 l hl

/-- A one-object heap whose dict points every field at location 0. -/
def heapW : Heap :=
  ⟨[PyObj.pydict
    { edge_x := 0, edge_y := 0, edge_z := 0,
      keyword_edge_x := 0, keyword_edge_y := 0, keyword_edge_z := 0,
      paper_x := 0, paper_y := 0, paper_z := 0,
      paper_labels := 0, paper_hover := 0, paper_ids := 0,
      keyword_x := 0, keyword_y := 0, keyword_z := 0,
      keyword_labels := 0, keyword_hover := 0,
      all_keywords := 0, paper_positions := 0, keyword_positions := 0,
      similarity_matrix := 0 }]⟩

theorem C10_filter_no_mutation_witness :
    ((filterRun heapW 0 [] 0 25).1).objs.get? 0 = heapW.objs.get? 0 :=
  C10_filter_no_mutation heapW 0 [] 0 25 0 (by simp [heapW])

theorem C2_top30_aggregate_witness :
    (cLookup (allKeywordsOf [paperK1, paperK2]) "k01").getD 0 =
      sumScores [paperK1, paperK2] "k01" :=
  (C2_top30_aggregate (fun _ => 0) (fun _ => 0) (fun _ => 0) (fun _ => none)
    (fun _ _ => 0) [paperK1, paperK2]).2.2.1 "k01"

theorem C4_doc_edge_iff_witness :
    (0, 1) ∈ docEdgePairs [[PyFloat.val 1, PyFloat.val (2 / 5)],
        [PyFloat.val (2 / 5), PyFloat.val 1]] (3 / 10) 2 ↔
      0 < 1 ∧ 1 < 2 ∧
        ∃ q : ℚ, mget? [[PyFloat.val 1, PyFloat.val (2 / 5)],
          [PyFloat.val (2 / 5), PyFloat.val 1]] 0 1 =
            some (PyFloat.val q) ∧ 3 / 10 < q :=
  C4_doc_edge_iff [[PyFloat.val 1, PyFloat.val (2 / 5)],
    [PyFloat.val (2 / 5), PyFloat.val 1]] 2 0 1

theorem C5_filter_idempotent_witness :
    filter_network_data (filter_network_data emptyNetworkData [paperA] (3 / 10) 25)
        [paperA] (3 / 10) 25 =
      filter_network_data emptyNetworkData [paperA] (3 / 10) 25 :=
  C5_filter_idempotent emptyNetworkData [paperA] (3 / 10) 25
